import Mathlib

/-!
Verification development for the coverage-evaluation engine of this
repository (`src/core/evaluation/coverage_evaluation.py`).

The Python module is shallowly embedded below.  External collaborators
(the `jieba` tokenizer, the spaCy similarity function and entity /
noun-chunk extraction, the LLM caller) are parameters of the embedded
functions, exactly as the specification declares them to be external
capabilities.  The MinHash sketches and the LSH index are provided to the
source module by the external `datasketch` library, whose code is not part
of this repository; they are modelled from the specification (sections 4.1
and 4.2) as the standard MinHash construction and banding query.
Machine floats of the source are modelled as exact rationals, Python's
`ZeroDivisionError` as an `Option.none` result.
-/

/-- Python's `\s` character class (ASCII fragment), also used by `str.strip`. -/
def isPyWs (c : Char) : Bool :=
  c = ' ' || c = '\t' || c = '\n' || c = '\r' || c = '\x0b' || c = '\x0c'

/-- Embeds `re.sub(r'\s+', ' ', s)`: every maximal whitespace run becomes one
space.  The flag records whether the previous character was whitespace. -/
def collapseWsAux : List Char → Bool → List Char
  | [], _ => []
  | c :: rest, prevWs =>
    if isPyWs c then
      if prevWs then collapseWsAux rest true
      else ' ' :: collapseWsAux rest true
    else c :: collapseWsAux rest false

/-- `re.sub(r'\s+', ' ', s)` on strings. -/
def collapseWs (s : String) : String :=
  String.mk (collapseWsAux s.data false)

/-- Embeds Python `str.strip()`. -/
def pyStrip (l : List Char) : List Char :=
  ((l.dropWhile isPyWs).reverse.dropWhile isPyWs).reverse

/-- Embeds `str.lower()` composed into the dedup normaliser (ASCII case map). -/
def pyLower (s : String) : String :=
  String.mk (s.data.map Char.toLower)

/-- The dedup normaliser of `extract_knowledge_points`:
`re.sub(r'\s+', ' ', text.lower())`. -/
def normText (s : String) : String :=
  collapseWs (pyLower s)

/-- Embeds `re.split(r'\n', content)` (split at every newline, keeping empties). -/
def splitNl : List Char → List Char → List (List Char)
  | [], cur => [cur.reverse]
  | c :: rest, cur =>
    if c = '\n' then cur.reverse :: splitNl rest [] else splitNl rest (c :: cur)

/-- Index of the last newline in a character list, if any. -/
def lastNlIdx (l : List Char) : Option Nat :=
  ((l.enum.filter (fun p => p.2 = '\n')).map (fun p => p.1)).getLast?

/-- Embeds `re.split(r'\n\s*\n', content)`.  A match starts at a newline; the
greedy `\s*` backtracks so the match ends at the last newline of the
whitespace run that follows.  Fuel-driven so the definition is structural
(the wrapper passes the length of the input, which always suffices because
every step consumes at least one character). -/
def splitBlankAux : Nat → List Char → List Char → List (List Char)
  | 0, s, cur => [cur.reverse ++ s]
  | _ + 1, [], cur => [cur.reverse]
  | fuel + 1, c :: rest, cur =>
    if c = '\n' then
      match lastNlIdx (rest.takeWhile isPyWs) with
      | some k => cur.reverse :: splitBlankAux fuel (rest.drop (k + 1)) []
      | none => splitBlankAux fuel rest (c :: cur)
    else splitBlankAux fuel rest (c :: cur)

/-- Embeds `split_document(content, min_length)`: split on blank lines, strip,
keep pieces of at least `minLength` characters; if fewer than 5 remain,
re-split the original content on single newlines instead. -/
def split_document (content : String) (minLength : Nat) : List String :=
  let ps := (splitBlankAux content.data.length content.data []).map pyStrip
  let ps := (ps.filter (fun p => minLength ≤ p.length)).map String.mk
  if ps.length < 5 then
    let qs := (splitNl content.data []).map pyStrip
    (qs.filter (fun p => minLength ≤ p.length)).map String.mk
  else ps

/-- Embeds Python string slicing `s[:n]`. -/
def takeChars (s : String) (n : Nat) : String :=
  String.mk (s.data.take n)

/-- Embeds Python's `sub in s` substring test. -/
def containsSub (pat s : List Char) : Bool :=
  (List.range (s.length + 1)).any (fun i => pat.isPrefixOf (s.drop i))

/-- Insertion step of a stable sort by an integer key: the new element (which
comes earlier in the input) is placed before the first element whose key is
not smaller, so elements with equal keys keep their input order. -/
def insertByKey (key : α → Nat) (a : α) : List α → List α
  | [] => [a]
  | b :: l => if key a ≤ key b then a :: b :: l else b :: insertByKey key a l

/-- Stable insertion sort, the model of Python's stable `sorted(xs, key=...)`. -/
def sortByKey (key : α → Nat) : List α → List α
  | [] => []
  | a :: l => insertByKey key a (sortByKey key l)

/-- First-occurrence deduplication with an explicit `seen` accumulator, the
shape of the dedup loop in `extract_knowledge_points` and of Python dict-key
collection: an element is kept iff its normalised form was not seen before. -/
def dedupByNorm [DecidableEq β] (norm : α → β) : List α → List β → List α
  | [], _ => []
  | p :: rest, seen =>
    if norm p ∈ seen then dedupByNorm norm rest seen
    else p :: dedupByNorm norm rest (norm p :: seen)

/-- Modelled from the spec: the sentinel maximum hash value of the MinHash
construction (`datasketch` uses `(1 << 32) - 1`; the library is not in
`src/`). -/
def maxHash : Nat := 2 ^ 32 - 1

/-- Modelled from the spec: MinHash sketch of a token sequence (spec 4.1, the
`datasketch` `MinHash` used by the source).  For each of `numPerm` hash
functions the minimum hash value over all tokens is tracked, starting from
the sentinel maximum, so an empty token sequence yields the all-sentinel
sketch.  The hash-function family is the external parameter `hf`; values are
reduced modulo `2 ^ 32` as in the library. -/
def buildSketch (hf : Nat → String → Nat) (numPerm : Nat) (tokens : List String) : List Nat :=
  (List.range numPerm).map (fun i => tokens.foldl (fun m t => min m (hf i t % 2 ^ 32)) maxHash)

/-- Modelled from the spec: LSH band match (spec 4.2, the `datasketch`
`MinHashLSH` banding used by the source): two sketches are candidates iff
some of the `b` bands of `r` consecutive components agree exactly. -/
def bandMatch (b r : Nat) (s1 s2 : List Nat) : Bool :=
  (List.range b).any (fun i => decide ((s1.drop (i * r)).take r = (s2.drop (i * r)).take r))

/-- Modelled from the spec: LSH query (spec 4.2): the previously inserted ids
whose stored sketch band-matches the query sketch, in insertion order.  `b`
and `r` stand for the band parameters the library derives from the
similarity threshold. -/
def lshQuery (b r : Nat) (entries : List (Nat × List Nat)) (q : List Nat) : List Nat :=
  (entries.filter (fun e => bandMatch b r e.2 q)).map (fun e => e.1)

/-- A QA pair as consumed from the JSON input; `question`/`answer` may be
missing from the dict, which `qa.get(..., '')` defaults to the empty
string. -/
structure QAPair where
  question : Option String
  answer : Option String
deriving DecidableEq

/-- One topic group of the QA input; the `topic` key may be missing. -/
structure TopicGroup where
  topic : Option String
  qa_pairs : List QAPair
deriving DecidableEq

/-- Embeds the per-segment record built by `compute_minhash`. -/
structure DocHash where
  minhash : List Nat
  content : String
  length : Nat
deriving DecidableEq

/-- Embeds the per-QA record built by `compute_qa_minhash`. -/
structure QAHash where
  minhash : List Nat
  topic : String
  question : String
  answer : String
  qa_idx : Nat
  topic_idx : Nat
deriving DecidableEq

/-- Embeds the `coverage_stats` dict of `compute_lsh_coverage`.  The Python
`defaultdict`s are modelled as functions returning `[]` off their keys. -/
structure CoverageStats where
  covered_paragraphs : Finset Nat
  paragraph_coverage : Nat → List Nat
  qa_matches : Nat → List Nat
  total_paragraphs : Nat
  coverage_rate : ℚ
  qa_with_match : Nat
  qa_match_rate : ℚ

/-- Embeds one entry of `hash_results['paragraph_details']`. -/
structure ParagraphDetail where
  index : Nat
  contentHead : String
  matched_qa_count : Nat
  matched_qa_indices : List Nat
deriving DecidableEq

/-- Embeds one entry of `hash_results['qa_details']`. -/
structure QADetail where
  index : Nat
  question : String
  topic : String
  matched_paragraphs : List Nat
deriving DecidableEq

/-- Embeds the `hash_results` dict returned by `hash_based_evaluation`. -/
structure HashResults where
  coverage_rate : ℚ
  covered_paragraphs : Nat
  total_paragraphs : Nat
  qa_with_match : Nat
  qa_match_rate : ℚ
  paragraph_details : List ParagraphDetail
  qa_details : List QADetail
deriving DecidableEq

/-- The two priority values assigned by `prioritize_knowledge_points`. -/
inductive Priority where
  | high
  | normal
deriving DecidableEq

/-- Embeds a knowledge-point dict.  `paragraph_idx` is present only on
LLM-extracted points (`'paragraph_idx' in point` becomes `≠ none`);
`priority` is absent until `prioritize_knowledge_points` sets it. -/
structure KnowledgePoint where
  text : String
  type : String
  source : String
  paragraph_idx : Option Nat
  priority : Option Priority
deriving DecidableEq

/-- Embeds one element of a `matched_points` list in `map_qa_to_knowledge`. -/
structure MatchedPoint where
  knowledge_idx : Nat
  knowledge_text : String
  similarity : ℚ
  priority : Priority
deriving DecidableEq

/-- Embeds one element of `mapping_results['mappings']`. -/
structure MappingEntry where
  qa_id : String
  topic : String
  question : String
  answerHead : String
  matched_points : List MatchedPoint
deriving DecidableEq

/-- Embeds `mapping_results`.  `knowledge_coverage` is kept as the flat list
of `(knowledge_idx, qa_id, similarity)` appends in loop order; the Python
defaultdict's key set is exactly the set of first components. -/
structure MappingResults where
  mappings : List MappingEntry
  knowledge_coverage : List (Nat × String × ℚ)
  qa_knowledge_points : List (String × List Nat)
deriving DecidableEq

/-- Embeds the dict returned by `calculate_weighted_coverage`. -/
structure WeightedCoverageStats where
  simple_coverage : ℚ
  weighted_coverage : ℚ
  covered_points : Nat
  total_points : Nat
  topic_coverage : List (String × Nat × ℚ)
deriving DecidableEq

/-- Embeds one entry of the gap list of `identify_knowledge_gaps`. -/
structure KnowledgeGap where
  index : Nat
  text : String
  type : String
  priority : Priority
deriving DecidableEq

/-- Embeds the dict returned by `identify_knowledge_gaps`. -/
structure GapsResult where
  all_gaps : List KnowledgeGap
  high_priority_gaps : List KnowledgeGap
  gap_count : Nat
  high_priority_gap_count : Nat
deriving DecidableEq

/-- Embeds `compute_minhash(segments, num_perm)`: whitespace-collapse each
segment, tokenize it with the external tokenizer `tok` (jieba in the
source), and sketch the tokens.  Returned in segment order; the Python dict
is keyed by the position `i`, recovered here from the list position. -/
def compute_minhash (tok : String → List String) (hf : Nat → String → Nat)
    (segments : List String) (numPerm : Nat) : List DocHash :=
  segments.map (fun s => ⟨buildSketch hf numPerm (tok (collapseWs s)), s, s.length⟩)

/-- The default topic name `f'未命名主题_{topic_idx}'`. -/
def defaultTopicName (ti : Nat) : String :=
  "未命名主题_" ++ toString ti

/-- Embeds `compute_qa_minhash(qa_data, num_perm)`: flatten the topic groups,
default missing `question`/`answer` fields to the empty string, sketch
`question + ' ' + answer` after whitespace collapsing. -/
def compute_qa_minhash (tok : String → List String) (hf : Nat → String → Nat)
    (qa_data : List TopicGroup) (numPerm : Nat) : List QAHash :=
  qa_data.enum.flatMap (fun tt =>
    tt.2.qa_pairs.enum.map (fun qq =>
      let question := qq.2.question.getD ("")
      let answer := qq.2.answer.getD ("")
      ⟨buildSketch hf numPerm (tok (collapseWs (question ++ " " ++ answer))),
       tt.2.topic.getD (defaultTopicName tt.1), question, answer, qq.1, tt.1⟩))

/-- The LSH insertions of `compute_lsh_coverage`: segment `i` is inserted under
key `doc_i`; the key round-trips to the index `i` via
`int(doc_id.split('_')[1])`, so ids are modelled as the indices
directly. -/
def docEntries (doc_hashes : List DocHash) : List (Nat × List Nat) :=
  doc_hashes.enum.map (fun d => (d.1, d.2.minhash))

/-- The union of all query results over the QA list, the contents of the
`covered_paragraphs` set of `compute_lsh_coverage`. -/
def lexCoveredList (b r : Nat) (doc_hashes : List DocHash) (qa_hashes : List QAHash) : List Nat :=
  qa_hashes.foldr (fun q acc => lshQuery b r (docEntries doc_hashes) q.minhash ++ acc) []

/-- Embeds `compute_lsh_coverage(doc_hashes, qa_hashes, threshold)`.  The band
parameters `b`, `r` stand for the banding the library derives from the
threshold.  `coverage_rate` divides by `len(doc_hashes)` without a guard, so
zero segments raises `ZeroDivisionError`, modelled as `none`;
`qa_match_rate` is guarded by `if qa_hashes else 0`. -/
def compute_lsh_coverage (b r : Nat) (doc_hashes : List DocHash)
    (qa_hashes : List QAHash) : Option CoverageStats :=
  if doc_hashes.length = 0 then none
  else some
    { covered_paragraphs := (lexCoveredList b r doc_hashes qa_hashes).toFinset
      paragraph_coverage := fun i =>
        (qa_hashes.enum.filter
          (fun q => decide (i ∈ lshQuery b r (docEntries doc_hashes) q.2.minhash))).map
          (fun q => q.1)
      qa_matches := fun qi =>
        ((qa_hashes.get? qi).map (fun q => lshQuery b r (docEntries doc_hashes) q.minhash)).getD []
      total_paragraphs := doc_hashes.length
      coverage_rate :=
        ((lexCoveredList b r doc_hashes qa_hashes).toFinset.card : ℚ) / (doc_hashes.length : ℚ)
      qa_with_match :=
        (qa_hashes.filter
          (fun q => decide (lshQuery b r (docEntries doc_hashes) q.minhash ≠ []))).length
      qa_match_rate :=
        if qa_hashes = [] then 0
        else
          ((qa_hashes.filter
            (fun q => decide (lshQuery b r (docEntries doc_hashes) q.minhash ≠ []))).length : ℚ) /
            (qa_hashes.length : ℚ) }

/-- The assembly of `hash_results` from the coverage stats (the dict literal
built at the end of `hash_based_evaluation`). -/
def assembleHashResults (segments : List String) (qa_hashes : List QAHash)
    (stats : CoverageStats) : HashResults × List String × CoverageStats :=
  ({ coverage_rate := stats.coverage_rate
     covered_paragraphs := stats.covered_paragraphs.card
     total_paragraphs := stats.total_paragraphs
     qa_with_match := stats.qa_with_match
     qa_match_rate := stats.qa_match_rate
     paragraph_details := segments.enum.map (fun is =>
       ⟨is.1, takeChars is.2 100 ++ "...", (stats.paragraph_coverage is.1).length,
        stats.paragraph_coverage is.1⟩)
     qa_details := qa_hashes.enum.map (fun iq =>
       ⟨iq.1, iq.2.question, iq.2.topic, stats.qa_matches iq.1⟩) },
   segments, stats)

/-- Embeds the pure result of `hash_based_evaluation(doc_content, qa_data,
output_dir, threshold)`: split the document, sketch segments and QA pairs,
run the LSH coverage and assemble `hash_results`.  File writes and the
heatmap rendering are side effects outside the returned value; the
`qa_pairs_flat` loop only annotates the input dicts and its result is never
read.  A `none` result models the `ZeroDivisionError` escaping on an empty
segment list. -/
def hash_based_evaluation (tok : String → List String) (hf : Nat → String → Nat)
    (b r : Nat) (doc_content : String) (qa_data : List TopicGroup) :
    Option (HashResults × List String × CoverageStats) :=
  let segments := split_document doc_content 50
  let doc_hashes := compute_minhash tok hf segments 128
  let qa_hashes := compute_qa_minhash tok hf qa_data 128
  (compute_lsh_coverage b r doc_hashes qa_hashes).map
    (assembleHashResults segments qa_hashes)

/-- The entity and noun-chunk points of `extract_knowledge_points`: the outputs
of the external spaCy model are the parameters `ents` (text and label) and
`chunks`; noun chunks whose stripped text is 3 characters or shorter are
filtered out.  Neither kind of point carries a `paragraph_idx` key. -/
def basicPoints (ents : List (String × String)) (chunks : List String) : List KnowledgePoint :=
  ents.map (fun e => ⟨e.1, e.2, "entity", none, none⟩) ++
    (chunks.filter (fun c => 3 < (pyStrip c.data).length)).map
      (fun c => ⟨c, "NOUN_PHRASE", "noun_chunk", none, none⟩)

/-- The knowledge-extraction prompt built for one paragraph. -/
def promptFor (para : String) : String :=
  "\n请从以下供应链技术文档段落中提取关键知识点。\n每个知识点应该是文档中明确表达的概念、技术、方法、趋势或见解。\n格式要求：\n1. 每个知识点用一句简洁的话表达\n2. 不要添加编号\n3. 不要添加解释\n4. 直接输出知识点列表，每行一个\n5. 如果段落中没有明确的知识点，请输出\"无明确知识点\"\n\n文档段落:\n" ++ para ++ "\n"

/-- Post-processing of one LLM response:
`[line.strip() for line in result.split('\n') if line.strip() and '无明确知识点' not in line]`. -/
def llmLines (res : String) : List String :=
  (((splitNl res.data []).filter
    (fun l => decide (pyStrip l ≠ []) && !containsSub ("无明确知识点".data) l)).map
      (fun l => String.mk (pyStrip l)))

/-- The LLM-extracted points of `extract_knowledge_points`: when a model caller
is provided, the document is re-split and each paragraph of at least 50
characters is sent to the LLM `mc`; each kept response line becomes a point
with `source = 'paragraph_i'` and `paragraph_idx = i`. -/
def advancedPoints (mc : Option (String → String)) (content : String) : List KnowledgePoint :=
  match mc with
  | none => []
  | some llm =>
    (split_document content 50).enum.flatMap (fun ip =>
      if ip.2.length < 50 then []
      else (llmLines (llm (promptFor ip.2))).map
        (fun t => ⟨t, "LLM_EXTRACTED", "paragraph_" ++ toString ip.1, some ip.1, none⟩))

/-- Embeds `extract_knowledge_points(content, nlp, model_caller)`: basic plus
advanced points, deduplicated by the normalised text with first occurrence
winning. -/
def extract_knowledge_points (ents : List (String × String)) (chunks : List String)
    (mc : Option (String → String)) (content : String) : List KnowledgePoint :=
  dedupByNorm (fun p => normText p.text) (basicPoints ents chunks ++ advancedPoints mc content) []

/-- The `low_coverage_paragraphs` list of `prioritize_knowledge_points`:
indices of paragraph details with `matched_qa_count == 0`. -/
def lowCoverageIdx (hr : HashResults) : List Nat :=
  (hr.paragraph_details.filter (fun p => p.matched_qa_count = 0)).map (fun p => p.index)

/-- The priority assignment loop of `prioritize_knowledge_points`: `high` iff
the point has a `paragraph_idx` key whose value is in the low-coverage
list. -/
def assignPriority (low : List Nat) (pt : KnowledgePoint) : KnowledgePoint :=
  { pt with
    priority := some (match pt.paragraph_idx with
      | some i => if i ∈ low then Priority.high else Priority.normal
      | none => Priority.normal) }

/-- Embeds `prioritize_knowledge_points(knowledge_points, hash_results)`:
assign priorities, then stably sort with key `0` for `high` and `1`
otherwise (Python's `sorted` is stable). -/
def prioritize_knowledge_points (points : List KnowledgePoint) (hr : HashResults) :
    List KnowledgePoint :=
  sortByKey (fun x => if x.priority = some Priority.high then 0 else 1)
    (points.map (assignPriority (lowCoverageIdx hr)))

/-- The combined QA text `question + ' ' + answer` with missing fields
defaulted. -/
def qaText (qa : QAPair) : String :=
  qa.question.getD ("") ++ " " ++ qa.answer.getD ("")

/-- The QA id `f'{topic_idx}_{qa_idx}'`. -/
def qaIdStr (ti qi : Nat) : String :=
  toString ti ++ "_" ++ toString qi

/-- One `matched_points` element of `map_qa_to_knowledge`. -/
def mkMatchedPoint (k : Nat) (p : KnowledgePoint) (s : ℚ) : MatchedPoint :=
  ⟨k, p.text, s, p.priority.getD Priority.normal⟩

/-- The `matched_points` list of one QA pair: the enumerated knowledge points
whose similarity to the QA text strictly exceeds `0.5`. -/
def matchedPointsFor (sim : String → String → ℚ) (points : List KnowledgePoint)
    (txt : String) : List MatchedPoint :=
  (points.enum.filter (fun kp => decide (sim txt kp.2.text > 1 / 2))).map
    (fun kp => mkMatchedPoint kp.1 kp.2 (sim txt kp.2.text))

/-- One element of `mapping_results['mappings']`; the stored answer is
truncated to its first 100 characters plus an ellipsis. -/
def mkMappingEntry (sim : String → String → ℚ) (points : List KnowledgePoint)
    (ti qi : Nat) (tname : String) (qa : QAPair) : MappingEntry :=
  ⟨qaIdStr ti qi, tname, qa.question.getD (""),
   takeChars (qa.answer.getD ("")) 100 ++ "...",
   matchedPointsFor sim points (qaText qa)⟩

/-- The `knowledge_coverage` appends produced by one QA pair, in loop order. -/
def covEntriesForQA (sim : String → String → ℚ) (points : List KnowledgePoint)
    (ti qi : Nat) (qa : QAPair) : List (Nat × String × ℚ) :=
  (points.enum.filter (fun kp => decide (sim (qaText qa) kp.2.text > 1 / 2))).map
    (fun kp => (kp.1, qaIdStr ti qi, sim (qaText qa) kp.2.text))

/-- The `knowledge_coverage` appends produced by one topic group. -/
def covEntriesForTopic (sim : String → String → ℚ) (points : List KnowledgePoint)
    (ti : Nat) (t : TopicGroup) : List (Nat × String × ℚ) :=
  t.qa_pairs.enum.flatMap (fun qq => covEntriesForQA sim points ti qq.1 qq.2)

/-- Embeds `map_qa_to_knowledge(qa_data, knowledge_points, nlp)`.  The
text-similarity function (spaCy vector similarity over lowercased texts in
the source) is the external parameter `sim`; a pair is recorded on both
sides exactly when `sim` exceeds `0.5`. -/
def map_qa_to_knowledge (sim : String → String → ℚ) (qa_data : List TopicGroup)
    (points : List KnowledgePoint) : MappingResults :=
  { mappings := qa_data.enum.flatMap (fun tt =>
      tt.2.qa_pairs.enum.map (fun qq =>
        mkMappingEntry sim points tt.1 qq.1 (tt.2.topic.getD (defaultTopicName tt.1)) qq.2))
    knowledge_coverage := qa_data.enum.flatMap (fun tt =>
      covEntriesForTopic sim points tt.1 tt.2)
    qa_knowledge_points := qa_data.enum.flatMap (fun tt =>
      tt.2.qa_pairs.enum.map (fun qq =>
        (qaIdStr tt.1 qq.1,
         (matchedPointsFor sim points (qaText qq.2)).map (fun mp => mp.knowledge_idx)))) }

/-- The weight dictionary of `calculate_weighted_coverage`: `1.5` for `high`
priority, `1.0` otherwise (also for points without a priority key). -/
def pointWeight (p : KnowledgePoint) : ℚ :=
  if p.priority = some Priority.high then 3 / 2 else 1

/-- The weight looked up by `knowledge_weights.get(k_idx, 1.0)`. -/
def weightAt (points : List KnowledgePoint) (k : Nat) : ℚ :=
  ((points.get? k).map pointWeight).getD 1

/-- The distinct keys of `mapping_results['knowledge_coverage']` in first-
insertion order (Python dict iteration order). -/
def coveredKeys (m : MappingResults) : List Nat :=
  dedupByNorm (fun k : Nat => k) (m.knowledge_coverage.map (fun e => e.1)) []

/-- The per-topic accumulation of `calculate_weighted_coverage`: an
insertion-ordered association of topic name to the distinct knowledge
indices reached by that topic's QA pairs. -/
def addToTopicAssoc (acc : List (String × List Nat)) (t : String) (k : Nat) :
    List (String × List Nat) :=
  match acc with
  | [] => [(t, [k])]
  | (t', s) :: rest =>
    if t' = t then (t', if k ∈ s then s else s ++ [k]) :: rest
    else (t', s) :: addToTopicAssoc rest t k

/-- Folds all `(topic, knowledge_idx)` occurrences of the mappings list. -/
def topicAssocOf (mappings : List MappingEntry) : List (String × List Nat) :=
  mappings.foldl (fun acc e =>
    e.matched_points.foldl (fun acc2 mp => addToTopicAssoc acc2 e.topic mp.knowledge_idx) acc) []

/-- Embeds `calculate_weighted_coverage(mapping_results, knowledge_points)`.
Both divisions are guarded exactly as in the source (`if knowledge_points
else 0`, `if total_weight > 0 else 0`). -/
def calculate_weighted_coverage (m : MappingResults) (points : List KnowledgePoint) :
    WeightedCoverageStats :=
  let total_weight : ℚ := (points.map pointWeight).sum
  let covered := coveredKeys m
  let covered_weight : ℚ := (covered.map (weightAt points)).sum
  { simple_coverage :=
      if points = [] then 0 else (covered.length : ℚ) / (points.length : ℚ)
    weighted_coverage :=
      if 0 < total_weight then covered_weight / total_weight else 0
    covered_points := covered.length
    total_points := points.length
    topic_coverage := (topicAssocOf m.mappings).map (fun ts =>
      (ts.1, ts.2.length,
       if points = [] then 0 else (ts.2.length : ℚ) / (points.length : ℚ))) }

/-- One gap entry of `identify_knowledge_gaps`; `type` and `priority` are read
with defaults `'UNKNOWN'` and `'normal'` (the typed embedding always has a
`type`). -/
def mkGap (i : Nat) (p : KnowledgePoint) : KnowledgeGap :=
  ⟨i, p.text, p.type, p.priority.getD Priority.normal⟩

/-- The unsorted uncovered-point list of `identify_knowledge_gaps`: enumerated
points whose index never occurs as a `knowledge_coverage` key. -/
def uncoveredGaps (m : MappingResults) (points : List KnowledgePoint) : List KnowledgeGap :=
  (points.enum.filter
    (fun ip => decide (ip.1 ∉ m.knowledge_coverage.map (fun e => e.1)))).map
      (fun ip => mkGap ip.1 ip.2)

/-- Embeds `identify_knowledge_gaps(mapping_results, knowledge_points)`:
uncovered points, stably sorted `high` first, plus the high-priority
sublist and the counts. -/
def identify_knowledge_gaps (m : MappingResults) (points : List KnowledgePoint) : GapsResult :=
  let sorted := sortByKey (fun g => if g.priority = Priority.high then 0 else 1)
    (uncoveredGaps m points)
  { all_gaps := sorted
    high_priority_gaps := sorted.filter (fun g => g.priority = Priority.high)
    gap_count := sorted.length
    high_priority_gap_count := (sorted.filter (fun g => g.priority = Priority.high)).length }

/-- Embeds the result dict of `knowledge_mapping_evaluation`. -/
structure KnowledgeResults where
  coverage_stats : WeightedCoverageStats
  knowledge_gaps : GapsResult
deriving DecidableEq

/-- Embeds the pure result of `knowledge_mapping_evaluation(doc_content,
qa_data, knowledge_points, hash_results, model_caller, output_dir)`:
prioritize, map QA pairs to the prioritized points, compute weighted
coverage and gaps.  File writes are side effects outside the value. -/
def knowledge_mapping_evaluation (sim : String → String → ℚ) (qa_data : List TopicGroup)
    (knowledge_points : List KnowledgePoint) (hr : HashResults) : KnowledgeResults :=
  let prioritized := prioritize_knowledge_points knowledge_points hr
  let m := map_qa_to_knowledge sim qa_data prioritized
  ⟨calculate_weighted_coverage m prioritized, identify_knowledge_gaps m prioritized⟩

/-- A trivial tokenizer instance used for concrete evaluations. -/
def tok0 : String → List String := fun s => [s]

/-- A constant hash family instance used for concrete evaluations. -/
def hf0 : Nat → String → Nat := fun _ _ => 0

/-- A constant similarity collaborator used for concrete evaluations. -/
def simConst : String → String → ℚ := fun _ _ => 1

/-- A 60-character single-paragraph document used for concrete evaluations. -/
def doc0 : String := "aaaaaaaaaaaaaaaaaaaaaaaaaaaaaaaaaaaaaaaaaaaaaaaaaaaaaaaaaaaa"

/-- Hash results with two paragraph details, the first unmatched. -/
def hrTwoParas : HashResults :=
  ⟨0, 0, 2, 0, 0, [⟨0, "", 0, []⟩, ⟨1, "", 2, [0, 1]⟩], []⟩

/-- Degenerate hash results used for concrete evaluations. -/
def hrEmpty : HashResults := ⟨0, 0, 0, 0, 0, [], []⟩

/-- An LLM point attributed to paragraph 0. -/
def kpLLM0 : KnowledgePoint := ⟨"P0", "LLM_EXTRACTED", "paragraph_0", some 0, none⟩

/-- An LLM point attributed to paragraph 1. -/
def kpLLM1 : KnowledgePoint := ⟨"P1", "LLM_EXTRACTED", "paragraph_1", some 1, none⟩

/-- An entity point used for concrete evaluations. -/
def kpFoo : KnowledgePoint := ⟨"Foo Bar", "ORG", "entity", none, none⟩

/-- A noun-chunk point whose normalised text collides with `kpFoo`. -/
def kpFoo2 : KnowledgePoint := ⟨"foo  bar", "NOUN_PHRASE", "noun_chunk", none, none⟩

/-- A covered point used for concrete evaluations. -/
def kpA : KnowledgePoint := ⟨"A", "T", "entity", none, some Priority.normal⟩

/-- An uncovered high-priority point used for concrete evaluations. -/
def kpB : KnowledgePoint := ⟨"B", "T", "entity", none, some Priority.high⟩

/-- Mapping results whose only coverage key is 0. -/
def mCov0 : MappingResults := ⟨[], [(0, "0_0", 1)], []⟩

/-- A single-segment sketch table used for concrete evaluations. -/
def dh0 : List DocHash := [⟨[0, 0, 0, 0], "seg", 3⟩]

/-- A QA hash whose sketch equals the one in `dh0`. -/
def q0 : QAHash := ⟨[0, 0, 0, 0], "T", "q", "a", 0, 0⟩

/-- A trivial LLM collaborator used for concrete evaluations. -/
def llm0 : String → String := fun _ => ""

/-- A QA pair with both fields present, used for concrete evaluations. -/
def qaQA : QAPair := ⟨some ("q"), some ("a")⟩

/-- A topic group holding `qaQA`, used for concrete evaluations. -/
def topicT : TopicGroup := ⟨some ("T"), [qaQA]⟩

/-- A knowledge point whose text equals `qaText qaQA`. -/
def kpQA : KnowledgePoint := ⟨"q a", "T", "entity", none, none⟩

theorem insertByKey_of_pos {α : Type} (P : α → Prop) [DecidablePred P] (a : α)
    (h : P a) (l : List α) :
    insertByKey (fun x => if P x then 0 else 1) a l = a :: l := by
  cases l with
  | nil => rfl
  | cons b l => simp [insertByKey, if_pos h]

theorem insertByKey_of_neg {α : Type} (P : α → Prop) [DecidablePred P] (a : α)
    (h : ¬ P a) (l1 l2 : List α) (h1 : ∀ b ∈ l1, P b) (h2 : ∀ b ∈ l2, ¬ P b) :
    insertByKey (fun x => if P x then 0 else 1) a (l1 ++ l2) = l1 ++ a :: l2 := by
  induction l1 with
  | nil =>
    cases l2 with
    | nil => rfl
    | cons c l2 =>
      have hc : ¬ P c := h2 c (List.mem_cons_self c l2)
      simp [insertByKey, if_neg h, if_neg hc]
  | cons b l1 ih =>
    have hb : P b := h1 b (List.mem_cons_self b l1)
    have : ¬ ((if P a then 0 else 1) ≤ (if P b then (0:Nat) else 1)) := by
      simp [if_neg h, if_pos hb]
    simp only [List.cons_append, insertByKey, if_neg this, List.append_eq]
    rw [ih (fun x hx => h1 x (List.mem_cons_of_mem b hx))]

theorem sortByKey_binary {α : Type} (P : α → Prop) [DecidablePred P] (l : List α) :
    sortByKey (fun x => if P x then 0 else 1) l =
      l.filter (fun x => decide (P x)) ++ l.filter (fun x => decide (¬ P x)) := by
  induction l with
  | nil => rfl
  | cons a l ih =>
    simp only [sortByKey, ih]
    by_cases h : P a
    · rw [insertByKey_of_pos P a h]
      simp [List.filter_cons, h]
    · rw [insertByKey_of_neg P a h _ _
        (fun b hb => by simpa using List.of_mem_filter hb)
        (fun b hb => by simpa using List.of_mem_filter hb)]
      simp [List.filter_cons, h]

theorem mem_sortByKey_binary {α : Type} (P : α → Prop) [DecidablePred P] (l : List α) (x : α) :
    x ∈ sortByKey (fun y => if P y then 0 else 1) l ↔ x ∈ l := by
  rw [sortByKey_binary P l]
  constructor
  · intro h
    rcases List.mem_append.mp h with h' | h'
    · exact List.mem_of_mem_filter h'
    · exact List.mem_of_mem_filter h'
  · intro h
    by_cases hp : P x
    · exact List.mem_append.mpr (Or.inl (List.mem_filter.mpr ⟨h, by simpa using hp⟩))
    · exact List.mem_append.mpr (Or.inr (List.mem_filter.mpr ⟨h, by simpa using hp⟩))

theorem mem_of_mem_dedupByNorm {α β : Type} [DecidableEq β] (norm : α → β)
    (l : List α) (seen : List β) (q : α) (h : q ∈ dedupByNorm norm l seen) : q ∈ l := by
  induction l generalizing seen with
  | nil => simp [dedupByNorm] at h
  | cons p rest ih =>
    by_cases hs : norm p ∈ seen
    · simp only [dedupByNorm, if_pos hs] at h
      exact List.mem_cons_of_mem p (ih _ h)
    · simp only [dedupByNorm, if_neg hs] at h
      rcases List.mem_cons.mp h with h' | h'
      · exact h' ▸ List.mem_cons_self p rest
      · exact List.mem_cons_of_mem p (ih _ h')

theorem norm_not_seen_of_mem_dedupByNorm {α β : Type} [DecidableEq β] (norm : α → β)
    (l : List α) (seen : List β) (q : α) (h : q ∈ dedupByNorm norm l seen) :
    norm q ∉ seen := by
  induction l generalizing seen with
  | nil => simp [dedupByNorm] at h
  | cons p rest ih =>
    by_cases hs : norm p ∈ seen
    · simp only [dedupByNorm, if_pos hs] at h
      exact ih _ h
    · simp only [dedupByNorm, if_neg hs] at h
      rcases List.mem_cons.mp h with h' | h'
      · exact h' ▸ hs
      · have := ih _ h'
        intro hq
        exact this (List.mem_cons_of_mem _ hq)

theorem nodup_map_dedupByNorm {α β : Type} [DecidableEq β] (norm : α → β)
    (l : List α) (seen : List β) :
    ((dedupByNorm norm l seen).map norm).Nodup := by
  induction l generalizing seen with
  | nil => simp [dedupByNorm]
  | cons p rest ih =>
    by_cases hs : norm p ∈ seen
    · simpa [dedupByNorm, if_pos hs] using ih seen
    · simp only [dedupByNorm, if_neg hs, List.map_cons, List.nodup_cons]
      refine ⟨?_, ih _⟩
      intro hmem
      rcases List.mem_map.mp hmem with ⟨q, hq, hnq⟩
      have := norm_not_seen_of_mem_dedupByNorm norm rest _ q hq
      exact this (hnq ▸ List.mem_cons_self _ _)

theorem find?_dedupByNorm {α β : Type} [DecidableEq β] (norm : α → β)
    (l : List α) (seen : List β) (q : α) (h : q ∈ dedupByNorm norm l seen) :
    l.find? (fun p => decide (norm p = norm q)) = some q := by
  induction l generalizing seen with
  | nil => simp [dedupByNorm] at h
  | cons p rest ih =>
    by_cases hs : norm p ∈ seen
    · simp only [dedupByNorm, if_pos hs] at h
      have hne : norm p ≠ norm q := by
        intro he
        exact norm_not_seen_of_mem_dedupByNorm norm rest seen q h (he ▸ hs)
      rw [List.find?_cons_of_neg _ (by simpa using hne)]
      exact ih _ h
    · simp only [dedupByNorm, if_neg hs] at h
      rcases List.mem_cons.mp h with h' | h'
      · subst h'
        exact List.find?_cons_of_pos _ (by simp)
      · have hq := norm_not_seen_of_mem_dedupByNorm norm rest _ q h'
        have hne : norm p ≠ norm q := by
          intro he
          exact hq (he ▸ List.mem_cons_self _ _)
        rw [List.find?_cons_of_neg _ (by simpa using hne)]
        exact ih _ h'

theorem exists_mem_dedupByNorm {α β : Type} [DecidableEq β] (norm : α → β)
    (l : List α) (seen : List β) (p : α) (hp : p ∈ l) :
    norm p ∈ seen ∨ ∃ q ∈ dedupByNorm norm l seen, norm q = norm p := by
  induction l generalizing seen with
  | nil => simp at hp
  | cons a rest ih =>
    by_cases hs : norm a ∈ seen
    · rcases List.mem_cons.mp hp with h' | h'
      · exact Or.inl (h' ▸ hs)
      · rcases ih seen h' with h | ⟨q, hq, he⟩
        · exact Or.inl h
        · exact Or.inr ⟨q, by simp only [dedupByNorm, if_pos hs]; exact hq, he⟩
    · rcases List.mem_cons.mp hp with h' | h'
      · refine Or.inr ⟨a, ?_, by rw [h']⟩
        simp only [dedupByNorm, if_neg hs]
        exact List.mem_cons_self _ _
      · rcases ih (norm a :: seen) h' with h | ⟨q, hq, he⟩
        · rcases List.mem_cons.mp h with h2 | h2
          · refine Or.inr ⟨a, ?_, h2.symm⟩
            simp only [dedupByNorm, if_neg hs]
            exact List.mem_cons_self _ _
          · exact Or.inl h2
        · refine Or.inr ⟨q, ?_, he⟩
          simp only [dedupByNorm, if_neg hs]
          exact List.mem_cons_of_mem _ hq

theorem mem_dedupById {α : Type} [DecidableEq α] (l : List α) (seen : List α) (x : α) :
    x ∈ dedupByNorm (fun k => k) l seen ↔ x ∈ l ∧ x ∉ seen := by
  constructor
  · intro h
    exact ⟨mem_of_mem_dedupByNorm _ l seen x h,
      norm_not_seen_of_mem_dedupByNorm (fun k => k) l seen x h⟩
  · rintro ⟨hl, hs⟩
    rcases exists_mem_dedupByNorm (fun k => k) l seen x hl with h | ⟨q, hq, he⟩
    · exact absurd h hs
    · exact he ▸ hq

theorem nodup_dedupById {α : Type} [DecidableEq α] (l : List α) (seen : List α) :
    (dedupByNorm (fun k => k) l seen).Nodup := by
  have := nodup_map_dedupByNorm (fun k => k) l seen
  simpa using this

theorem toFinset_dedupById {α : Type} [DecidableEq α] (l : List α) :
    (dedupByNorm (fun k => k) l []).toFinset = l.toFinset := by
  ext x
  simp [List.mem_toFinset, mem_dedupById]

theorem length_dedupById {α : Type} [DecidableEq α] (l : List α) :
    (dedupByNorm (fun k => k) l []).length = l.toFinset.card := by
  rw [← toFinset_dedupById l, List.toFinset_card_of_nodup (nodup_dedupById l [])]

theorem sum_map_dedupById (l : List Nat) (f : Nat → ℚ) :
    ((dedupByNorm (fun k => k) l []).map f).sum = ∑ k in l.toFinset, f k := by
  rw [← toFinset_dedupById l, List.sum_toFinset f (nodup_dedupById l [])]

theorem mem_lshQuery_lt (b r : Nat) (docs : List DocHash) (s : List Nat) (i : Nat)
    (h : i ∈ lshQuery b r (docEntries docs) s) : i < docs.length := by
  rcases List.mem_map.mp h with ⟨e, he, rfl⟩
  have he2 : e ∈ docEntries docs := List.mem_of_mem_filter he
  rcases List.mem_map.mp he2 with ⟨d, hd, rfl⟩
  have : docs.get? d.1 = some d.2 := by
    rw [List.get?_eq_getElem?]
    exact List.mk_mem_enum_iff_getElem?.mp hd
  exact (List.get?_eq_some.mp this).1

theorem lexCoveredList_append (b r : Nat) (docs : List DocHash) (l1 l2 : List QAHash) :
    lexCoveredList b r docs (l1 ++ l2) =
      lexCoveredList b r docs l1 ++ lexCoveredList b r docs l2 := by
  induction l1 with
  | nil => rfl
  | cons q l1 ih =>
    simp [lexCoveredList, List.foldr_cons] at ih ⊢
    rw [ih]

theorem mem_lexCoveredList (b r : Nat) (docs : List DocHash) (qas : List QAHash) (i : Nat) :
    i ∈ lexCoveredList b r docs qas ↔
      ∃ q ∈ qas, i ∈ lshQuery b r (docEntries docs) q.minhash := by
  induction qas with
  | nil => simp [lexCoveredList]
  | cons q qas ih =>
    simp only [lexCoveredList, List.foldr_cons, List.mem_append] at ih ⊢
    rw [ih]
    constructor
    · rintro (h | ⟨q', hq', hi⟩)
      · exact ⟨q, List.mem_cons_self _ _, h⟩
      · exact ⟨q', List.mem_cons_of_mem _ hq', hi⟩
    · rintro ⟨q', hq', hi⟩
      rcases List.mem_cons.mp hq' with h' | h'
      · exact Or.inl (h' ▸ hi)
      · exact Or.inr ⟨q', h', hi⟩

theorem mem_lexCoveredList_lt (b r : Nat) (docs : List DocHash) (qas : List QAHash) (i : Nat)
    (h : i ∈ lexCoveredList b r docs qas) : i < docs.length := by
  rcases (mem_lexCoveredList b r docs qas i).mp h with ⟨q, _, hi⟩
  exact mem_lshQuery_lt b r docs q.minhash i hi

theorem lexCovered_toFinset_subset_range (b r : Nat) (docs : List DocHash)
    (qas : List QAHash) :
    (lexCoveredList b r docs qas).toFinset ⊆ Finset.range docs.length := by
  intro i hi
  rw [Finset.mem_range]
  exact mem_lexCoveredList_lt b r docs qas i (List.mem_toFinset.mp hi)

theorem covEntriesForQA_fst (sim : String → String → ℚ) (pts : List KnowledgePoint)
    (ti qi : Nat) (qa : QAPair) :
    (covEntriesForQA sim pts ti qi qa).map (fun e => e.1) =
      ((pts.enum.filter (fun kp => decide (sim (qaText qa) kp.2.text > 1 / 2))).map
        (fun kp => kp.1)) := by
  simp [covEntriesForQA, List.map_map, Function.comp]

theorem covEntriesForTopic_fst (sim : String → String → ℚ) (pts : List KnowledgePoint)
    (ti ti' : Nat) (t : TopicGroup) :
    (covEntriesForTopic sim pts ti t).map (fun e => e.1) =
      (covEntriesForTopic sim pts ti' t).map (fun e => e.1) := by
  simp only [covEntriesForTopic, List.map_flatMap]
  congr 1
  funext qq
  rw [covEntriesForQA_fst, covEntriesForQA_fst]

theorem semKeys_append_single (sim : String → String → ℚ) (qd : List TopicGroup)
    (pts : List KnowledgePoint) (t : TopicGroup) :
    (map_qa_to_knowledge sim (qd ++ [t]) pts).knowledge_coverage.map (fun e => e.1) =
      (map_qa_to_knowledge sim qd pts).knowledge_coverage.map (fun e => e.1) ++
        (covEntriesForTopic sim pts 0 t).map (fun e => e.1) := by
  show ((qd ++ [t]).enum.flatMap fun tt => covEntriesForTopic sim pts tt.1 tt.2).map
      (fun e => e.1) = _
  have henum : (qd ++ [t]).enum = qd.enum ++ [(qd.length, t)] := by
    show List.enumFrom 0 (qd ++ [t]) = _
    rw [List.enumFrom_append, Nat.zero_add]
    rfl
  rw [henum, List.flatMap_append, List.map_append]
  congr 1
  simp only [List.flatMap_cons, List.flatMap_nil, List.append_nil]
  exact covEntriesForTopic_fst sim pts qd.length 0 t

theorem mem_covKeys_lt (sim : String → String → ℚ) (qd : List TopicGroup)
    (pts : List KnowledgePoint) (k : Nat)
    (h : k ∈ (map_qa_to_knowledge sim qd pts).knowledge_coverage.map (fun e => e.1)) :
    k < pts.length := by
  rcases List.mem_map.mp h with ⟨e, he, rfl⟩
  rcases List.mem_flatMap.mp he with ⟨tt, _, he2⟩
  rcases List.mem_flatMap.mp he2 with ⟨qq, _, he3⟩
  rcases List.mem_map.mp he3 with ⟨kp, hkp, rfl⟩
  have hkp2 : kp ∈ pts.enum := List.mem_of_mem_filter hkp
  have : pts.get? kp.1 = some kp.2 := by
    rw [List.get?_eq_getElem?]
    exact List.mk_mem_enum_iff_getElem?.mp (by exact hkp2)
  exact (List.get?_eq_some.mp this).1

theorem covKeys_subset_range (sim : String → String → ℚ) (qd : List TopicGroup)
    (pts : List KnowledgePoint) :
    ((map_qa_to_knowledge sim qd pts).knowledge_coverage.map (fun e => e.1)).toFinset ⊆
      Finset.range pts.length := by
  intro k hk
  rw [Finset.mem_range]
  exact mem_covKeys_lt sim qd pts k (List.mem_toFinset.mp hk)

theorem covEntry_sim_gt (sim : String → String → ℚ) (qd : List TopicGroup)
    (pts : List KnowledgePoint) (e : Nat × String × ℚ)
    (h : e ∈ (map_qa_to_knowledge sim qd pts).knowledge_coverage) : 1 / 2 < e.2.2 := by
  rcases List.mem_flatMap.mp h with ⟨tt, _, he2⟩
  rcases List.mem_flatMap.mp he2 with ⟨qq, _, he3⟩
  rcases List.mem_map.mp he3 with ⟨kp, hkp, rfl⟩
  simpa using List.of_mem_filter hkp

theorem sum_map_eq_sum_range (l : List KnowledgePoint) :
    (l.map pointWeight).sum = ∑ k in Finset.range l.length, weightAt l k := by
  induction l with
  | nil => simp
  | cons a l ih =>
    have h0 : weightAt (a :: l) 0 = pointWeight a := by simp [weightAt]
    have hs : ∀ k, weightAt (a :: l) (k + 1) = weightAt l k := by
      intro k
      simp [weightAt]
    rw [List.map_cons, List.sum_cons, List.length_cons, Finset.sum_range_succ', ih, h0,
      Finset.sum_congr rfl (fun k _ => hs k)]
    exact add_comm _ _

theorem pointWeight_pos (p : KnowledgePoint) : 0 < pointWeight p := by
  unfold pointWeight
  split <;> norm_num

theorem weightAt_pos (l : List KnowledgePoint) (k : Nat) : 0 < weightAt l k := by
  unfold weightAt
  cases h : l.get? k with
  | none => simp
  | some p => simpa using pointWeight_pos p

theorem total_weight_pos (l : List KnowledgePoint) (h : l ≠ []) :
    0 < (l.map pointWeight).sum := by
  apply List.sum_pos
  · intro x hx
    rcases List.mem_map.mp hx with ⟨p, _, rfl⟩
    exact pointWeight_pos p
  · simpa using h

/-- C4: `prioritize_knowledge_points` assigns priority `high` to exactly the
points whose `paragraph_idx` lies in the zero-match low-coverage segment
list, `normal` to all others, and returns the stable partition of the
assigned list with all high-priority points first, preserving relative
order inside each tier. -/
theorem c4_prioritize_stable_partition (points : List KnowledgePoint) (hr : HashResults) :
    prioritize_knowledge_points points hr =
      (points.map (assignPriority (lowCoverageIdx hr))).filter
        (fun x => decide (x.priority = some Priority.high)) ++
      (points.map (assignPriority (lowCoverageIdx hr))).filter
        (fun x => decide (¬ x.priority = some Priority.high)) ∧
    ∀ pt ∈ points.map (assignPriority (lowCoverageIdx hr)),
      (pt.priority = some Priority.high ↔
        ∃ i, pt.paragraph_idx = some i ∧ i ∈ lowCoverageIdx hr) := by
  constructor
  · exact sortByKey_binary (fun x : KnowledgePoint => x.priority = some Priority.high) _
  · intro pt hpt
    rcases List.mem_map.mp hpt with ⟨p, _, rfl⟩
    unfold assignPriority
    cases hpi : p.paragraph_idx with
    | none =>
      simp only [hpi]
      constructor
      · intro h
        simp at h
      · rintro ⟨i, hi, _⟩
        simp at hi
    | some i =>
      by_cases hmem : i ∈ lowCoverageIdx hr
      · simp [hpi, hmem]
      · simp only [hpi, if_neg hmem]
        constructor
        · intro h
          simp at h
        · rintro ⟨j, hj, hjm⟩
          cases Option.some.inj hj
          exact absurd hjm hmem

/-- Witness for C4 at a concrete point list and hash results. -/
theorem c4_prioritize_stable_partition_witness :
    assignPriority (lowCoverageIdx hrTwoParas) kpLLM0 ∈
      ([kpLLM0, kpLLM1].map (assignPriority (lowCoverageIdx hrTwoParas))) ∧
    ((assignPriority (lowCoverageIdx hrTwoParas) kpLLM0).priority = some Priority.high ↔
      ∃ i, (assignPriority (lowCoverageIdx hrTwoParas) kpLLM0).paragraph_idx = some i ∧
        i ∈ lowCoverageIdx hrTwoParas) :=
  ⟨by decide,
   (c4_prioritize_stable_partition [kpLLM0, kpLLM1] hrTwoParas).2 _ (by decide)⟩

/-- C5: the deduplication of `extract_knowledge_points` keeps exactly one
point per normalised (lowercased, whitespace-collapsed) text, the kept
point is the first occurrence in the input (with all its fields, hence its
source-paragraph attribution), every input point has a representative, and
`extract_knowledge_points` is this dedup of the concatenated basic and
LLM-extracted points. -/
theorem c5_dedup_first_occurrence (pts : List KnowledgePoint) :
    ((dedupByNorm (fun p => normText p.text) pts []).map
      (fun p => normText p.text)).Nodup ∧
    (∀ q ∈ dedupByNorm (fun p => normText p.text) pts [],
      pts.find? (fun p => decide (normText p.text = normText q.text)) = some q) ∧
    (∀ p ∈ pts, ∃ q ∈ dedupByNorm (fun p => normText p.text) pts [],
      normText q.text = normText p.text) ∧
    (∀ ents chunks mc content,
      extract_knowledge_points ents chunks mc content =
        dedupByNorm (fun p => normText p.text)
          (basicPoints ents chunks ++ advancedPoints mc content) []) := by
  refine ⟨nodup_map_dedupByNorm _ pts [], ?_, ?_, ?_⟩
  · intro q hq
    exact find?_dedupByNorm _ pts [] q hq
  · intro p hp
    rcases exists_mem_dedupByNorm (fun p => normText p.text) pts [] p hp with h | h
    · simp at h
    · exact h
  · intro ents chunks mc content
    rfl

/-- Witness for C5 at a concrete point list with a normalised-text
collision. -/
theorem c5_dedup_first_occurrence_witness :
    kpFoo ∈ dedupByNorm (fun p => normText p.text) [kpFoo, kpFoo2] [] ∧
    [kpFoo, kpFoo2].find?
      (fun p => decide (normText p.text = normText kpFoo.text)) = some kpFoo :=
  ⟨by decide, (c5_dedup_first_occurrence [kpFoo, kpFoo2]).2.1 kpFoo (by decide)⟩

/-- C8: the gap list of `identify_knowledge_gaps` is the stable partition
(high first, input order inside each tier) of the uncovered-point list, a
gap entry exists exactly for each knowledge point whose index never occurs
as a coverage key (carrying its text, type and priority via `mkGap`), and
the high-priority gap list is the high-priority filter of the gap list. -/
theorem c8_gap_list (m : MappingResults) (points : List KnowledgePoint) :
    (identify_knowledge_gaps m points).all_gaps =
      (uncoveredGaps m points).filter (fun g => decide (g.priority = Priority.high)) ++
      (uncoveredGaps m points).filter (fun g => decide (¬ g.priority = Priority.high)) ∧
    (∀ g, g ∈ (identify_knowledge_gaps m points).all_gaps ↔
      ∃ i p, points.get? i = some p ∧ (∀ e ∈ m.knowledge_coverage, e.1 ≠ i) ∧
        g = mkGap i p) ∧
    (identify_knowledge_gaps m points).high_priority_gaps =
      ((identify_knowledge_gaps m points).all_gaps).filter
        (fun g => decide (g.priority = Priority.high)) := by
  refine ⟨sortByKey_binary (fun g : KnowledgeGap => g.priority = Priority.high) _, ?_, rfl⟩
  intro g
  show g ∈ sortByKey _ (uncoveredGaps m points) ↔ _
  rw [mem_sortByKey_binary (fun g : KnowledgeGap => g.priority = Priority.high)]
  unfold uncoveredGaps
  constructor
  · intro h
    rcases List.mem_map.mp h with ⟨ip, hip, rfl⟩
    have hip2 : ip ∈ points.enum := List.mem_of_mem_filter hip
    have hget : points.get? ip.1 = some ip.2 := by
      rw [List.get?_eq_getElem?]
      exact List.mk_mem_enum_iff_getElem?.mp (by exact hip2)
    have hcov : ip.1 ∉ m.knowledge_coverage.map (fun e => e.1) := by
      simpa using List.of_mem_filter hip
    refine ⟨ip.1, ip.2, hget, ?_, rfl⟩
    intro e he heq
    exact hcov (heq ▸ List.mem_map_of_mem (fun e => e.1) he)
  · rintro ⟨i, p, hget, hcov, rfl⟩
    have hip : (i, p) ∈ points.enum := by
      rw [List.mk_mem_enum_iff_getElem?, ← List.get?_eq_getElem?]
      exact hget
    have hnc : i ∉ m.knowledge_coverage.map (fun e => e.1) := by
      intro hmem
      rcases List.mem_map.mp hmem with ⟨e, he, heq⟩
      exact hcov e he heq
    refine List.mem_map_of_mem _ (List.mem_filter.mpr ⟨hip, ?_⟩)
    simpa using hnc

/-- Witness for C8 at concrete mapping results and points. -/
theorem c8_gap_list_witness :
    mkGap 1 kpB ∈ (identify_knowledge_gaps mCov0 [kpA, kpB]).all_gaps ∧
    (∀ e ∈ mCov0.knowledge_coverage, e.1 ≠ 1) :=
  ⟨((c8_gap_list mCov0 [kpA, kpB]).2.1 (mkGap 1 kpB)).mpr
    ⟨1, kpB, by decide, by decide, rfl⟩, by decide⟩

theorem mem_enum_of_get? {α : Type} (l : List α) (i : Nat) (x : α)
    (h : l.get? i = some x) : (i, x) ∈ l.enum := by
  rw [List.mk_mem_enum_iff_getElem?, ← List.get?_eq_getElem?]
  exact h

/-- C7: `calculate_weighted_coverage` on a mapping produced by
`map_qa_to_knowledge` weights high-priority points `1.5` and all others
`1.0`, returns the count of distinct mapped points, `simpleCoverage` equal
to that count over the total point count, `weightedCoverage` equal to the
weight-sum of mapped points over the weight-sum of all points, and both
rates `0` with no division when there are no knowledge points. -/
theorem c7_weighted_coverage (sim : String → String → ℚ) (qd : List TopicGroup)
    (pts : List KnowledgePoint) :
    (calculate_weighted_coverage (map_qa_to_knowledge sim qd pts) pts).covered_points =
      (((map_qa_to_knowledge sim qd pts).knowledge_coverage.map
        (fun e => e.1)).toFinset).card ∧
    (pts = [] →
      (calculate_weighted_coverage (map_qa_to_knowledge sim qd pts) pts).simple_coverage = 0 ∧
      (calculate_weighted_coverage (map_qa_to_knowledge sim qd pts) pts).weighted_coverage = 0) ∧
    (pts ≠ [] →
      (calculate_weighted_coverage (map_qa_to_knowledge sim qd pts) pts).simple_coverage =
        ((((map_qa_to_knowledge sim qd pts).knowledge_coverage.map
          (fun e => e.1)).toFinset).card : ℚ) / (pts.length : ℚ) ∧
      (calculate_weighted_coverage (map_qa_to_knowledge sim qd pts) pts).weighted_coverage =
        (∑ k in ((map_qa_to_knowledge sim qd pts).knowledge_coverage.map
          (fun e => e.1)).toFinset, weightAt pts k) / ((pts.map pointWeight).sum)) ∧
    (∀ p : KnowledgePoint,
      (p.priority = some Priority.high → pointWeight p = 3 / 2) ∧
      (p.priority ≠ some Priority.high → pointWeight p = 1)) := by
  refine ⟨?_, ?_, ?_, ?_⟩
  · show (coveredKeys (map_qa_to_knowledge sim qd pts)).length = _
    exact length_dedupById _
  · intro h
    subst h
    constructor
    · simp [calculate_weighted_coverage]
    · simp [calculate_weighted_coverage]
  · intro h
    constructor
    · show (if pts = [] then (0:ℚ) else _) = _
      rw [if_neg h]
      congr 1
      rw [Nat.cast_inj]
      exact length_dedupById _
    · show (if (0:ℚ) < (pts.map pointWeight).sum then _ / _ else 0) = _
      rw [if_pos (total_weight_pos pts h)]
      congr 1
      exact sum_map_dedupById _ (weightAt pts)
  · intro p
    constructor
    · intro h
      simp [pointWeight, h]
    · intro h
      simp [pointWeight, h]

/-- Witness for C7 at a concrete similarity, QA set and point list. -/
theorem c7_weighted_coverage_witness :
    ([kpQA] : List KnowledgePoint) ≠ [] ∧
    (calculate_weighted_coverage (map_qa_to_knowledge simConst [topicT] [kpQA]) [kpQA]).simple_coverage =
      ((((map_qa_to_knowledge simConst [topicT] [kpQA]).knowledge_coverage.map
        (fun e => e.1)).toFinset).card : ℚ) / (([kpQA] : List KnowledgePoint).length : ℚ) :=
  ⟨by decide, ((c7_weighted_coverage simConst [topicT] [kpQA]).2.2.1 (by decide)).1⟩

/-- C6: for a QA pair at position `(ti, qi)` and a knowledge point at index
`k`, `map_qa_to_knowledge` records a matched-point entry in the QA's
mapping entry iff the similarity of the combined question-and-answer text
with the point's text strictly exceeds `0.5`, records the corresponding
`knowledge_coverage` entry when it does, and every `knowledge_coverage`
entry carries a similarity strictly above `0.5`. -/
theorem c6_mapping_threshold (sim : String → String → ℚ) (qd : List TopicGroup)
    (pts : List KnowledgePoint) (ti qi k : Nat) (topic : TopicGroup) (qa : QAPair)
    (p : KnowledgePoint) (h1 : qd.get? ti = some topic)
    (h2 : topic.qa_pairs.get? qi = some qa) (h3 : pts.get? k = some p) :
    mkMappingEntry sim pts ti qi (topic.topic.getD (defaultTopicName ti)) qa ∈
      (map_qa_to_knowledge sim qd pts).mappings ∧
    ((∃ mp ∈ (mkMappingEntry sim pts ti qi (topic.topic.getD (defaultTopicName ti))
        qa).matched_points, mp.knowledge_idx = k) ↔ 1 / 2 < sim (qaText qa) p.text) ∧
    (1 / 2 < sim (qaText qa) p.text →
      (k, qaIdStr ti qi, sim (qaText qa) p.text) ∈
        (map_qa_to_knowledge sim qd pts).knowledge_coverage) ∧
    (∀ e ∈ (map_qa_to_knowledge sim qd pts).knowledge_coverage, 1 / 2 < e.2.2) := by
  have hti : (ti, topic) ∈ qd.enum := mem_enum_of_get? qd ti topic h1
  have hqi : (qi, qa) ∈ topic.qa_pairs.enum := mem_enum_of_get? topic.qa_pairs qi qa h2
  have hk : (k, p) ∈ pts.enum := mem_enum_of_get? pts k p h3
  refine ⟨?_, ?_, ?_, covEntry_sim_gt sim qd pts⟩
  · apply List.mem_flatMap.mpr
    exact ⟨(ti, topic), hti, List.mem_map_of_mem _ hqi⟩
  · constructor
    · rintro ⟨mp, hmp, hidx⟩
      rcases List.mem_map.mp hmp with ⟨kp, hkp, rfl⟩
      have hcond := List.of_mem_filter hkp
      have hkp2 : kp ∈ pts.enum := List.mem_of_mem_filter hkp
      have hget : pts.get? kp.1 = some kp.2 := by
        rw [List.get?_eq_getElem?]
        exact List.mk_mem_enum_iff_getElem?.mp (by exact hkp2)
      have hkk : kp.1 = k := hidx
      rw [hkk] at hget
      have : kp.2 = p := by
        rw [h3] at hget
        exact (Option.some.inj hget).symm
      rw [← this]
      simpa using hcond
    · intro hsim
      refine ⟨mkMatchedPoint k p (sim (qaText qa) p.text), ?_, rfl⟩
      show _ ∈ matchedPointsFor sim pts (qaText qa)
      unfold matchedPointsFor
      exact List.mem_map_of_mem _ (List.mem_filter.mpr ⟨hk, by simpa using hsim⟩)
  · intro hsim
    apply List.mem_flatMap.mpr
    refine ⟨(ti, topic), hti, ?_⟩
    apply List.mem_flatMap.mpr
    refine ⟨(qi, qa), hqi, ?_⟩
    show _ ∈ (pts.enum.filter _).map _
    have : (k, p) ∈ pts.enum.filter
        (fun kp => decide (sim (qaText qa) kp.2.text > 1 / 2)) :=
      List.mem_filter.mpr ⟨hk, by simpa using hsim⟩
    exact List.mem_map_of_mem _ this

/-- Witness for C6 at a concrete QA group and knowledge point. -/
theorem c6_mapping_threshold_witness :
    ([topicT] : List TopicGroup).get? 0 = some topicT ∧
    1 / 2 < simConst (qaText qaQA) kpQA.text ∧
    (0, qaIdStr 0 0, simConst (qaText qaQA) kpQA.text) ∈
      (map_qa_to_knowledge simConst [topicT] [kpQA]).knowledge_coverage :=
  ⟨rfl, by norm_num [simConst],
   (c6_mapping_threshold simConst [topicT] [kpQA] 0 0 0 topicT qaQA kpQA rfl rfl rfl).2.2.1
     (by norm_num [simConst])⟩

/-- C9: coverage counts are monotone in the QA set.  Appending a QA unit
extends the lexical covered-paragraph set of `compute_lsh_coverage` (so its
size never decreases, and strictly increases when the new unit's query hits
a previously uncovered segment), and likewise appending a topic group
extends the covered knowledge-point set of `map_qa_to_knowledge` (strictly
when a new pair matches a previously uncovered point). -/
theorem c9_monotonicity (b r : Nat) (docs : List DocHash) (qas : List QAHash) (q : QAHash)
    (sim : String → String → ℚ) (qd : List TopicGroup) (pts : List KnowledgePoint)
    (t : TopicGroup) :
    (∀ s, compute_lsh_coverage b r docs qas = some s →
      s.covered_paragraphs = (lexCoveredList b r docs qas).toFinset) ∧
    (lexCoveredList b r docs qas).toFinset ⊆
      (lexCoveredList b r docs (qas ++ [q])).toFinset ∧
    (lexCoveredList b r docs qas).toFinset.card ≤
      (lexCoveredList b r docs (qas ++ [q])).toFinset.card ∧
    ((∃ i, i ∈ lshQuery b r (docEntries docs) q.minhash ∧
        i ∉ (lexCoveredList b r docs qas).toFinset) →
      (lexCoveredList b r docs qas).toFinset.card <
        (lexCoveredList b r docs (qas ++ [q])).toFinset.card) ∧
    ((map_qa_to_knowledge sim qd pts).knowledge_coverage.map (fun e => e.1)).toFinset ⊆
      ((map_qa_to_knowledge sim (qd ++ [t]) pts).knowledge_coverage.map
        (fun e => e.1)).toFinset ∧
    ((map_qa_to_knowledge sim qd pts).knowledge_coverage.map (fun e => e.1)).toFinset.card ≤
      ((map_qa_to_knowledge sim (qd ++ [t]) pts).knowledge_coverage.map
        (fun e => e.1)).toFinset.card ∧
    ((∃ k p qa, pts.get? k = some p ∧ qa ∈ t.qa_pairs ∧ 1 / 2 < sim (qaText qa) p.text ∧
        k ∉ ((map_qa_to_knowledge sim qd pts).knowledge_coverage.map
          (fun e => e.1)).toFinset) →
      ((map_qa_to_knowledge sim qd pts).knowledge_coverage.map
        (fun e => e.1)).toFinset.card <
        ((map_qa_to_knowledge sim (qd ++ [t]) pts).knowledge_coverage.map
          (fun e => e.1)).toFinset.card) := by
  have hlex : (lexCoveredList b r docs (qas ++ [q])).toFinset =
      (lexCoveredList b r docs qas).toFinset ∪
        (lshQuery b r (docEntries docs) q.minhash).toFinset := by
    rw [lexCoveredList_append]
    rw [List.toFinset_append]
    congr 1
    show (lexCoveredList b r docs [q]).toFinset = _
    simp [lexCoveredList]
  have hsem : ((map_qa_to_knowledge sim (qd ++ [t]) pts).knowledge_coverage.map
      (fun e => e.1)).toFinset =
      ((map_qa_to_knowledge sim qd pts).knowledge_coverage.map (fun e => e.1)).toFinset ∪
        ((covEntriesForTopic sim pts 0 t).map (fun e => e.1)).toFinset := by
    rw [semKeys_append_single, List.toFinset_append]
  have hsubL : (lexCoveredList b r docs qas).toFinset ⊆
      (lexCoveredList b r docs (qas ++ [q])).toFinset := by
    rw [hlex]
    exact Finset.subset_union_left
  have hsubS : ((map_qa_to_knowledge sim qd pts).knowledge_coverage.map
      (fun e => e.1)).toFinset ⊆
      ((map_qa_to_knowledge sim (qd ++ [t]) pts).knowledge_coverage.map
        (fun e => e.1)).toFinset := by
    rw [hsem]
    exact Finset.subset_union_left
  refine ⟨?_, hsubL, Finset.card_le_card hsubL, ?_, hsubS, Finset.card_le_card hsubS, ?_⟩
  · intro s hs
    unfold compute_lsh_coverage at hs
    split at hs
    · exact absurd hs (by simp)
    · have := (Option.some.inj hs).symm
      subst this
      rfl
  · rintro ⟨i, hiq, hni⟩
    apply Finset.card_lt_card
    rw [Finset.ssubset_iff_of_subset hsubL]
    refine ⟨i, ?_, hni⟩
    rw [hlex]
    exact Finset.mem_union_right _ (List.mem_toFinset.mpr hiq)
  · rintro ⟨k, p, qa, hget, hqa, hsim, hnk⟩
    apply Finset.card_lt_card
    rw [Finset.ssubset_iff_of_subset hsubS]
    refine ⟨k, ?_, hnk⟩
    rw [hsem]
    apply Finset.mem_union_right
    apply List.mem_toFinset.mpr
    apply List.mem_map.mpr
    rcases List.getElem_of_mem hqa with ⟨qi, hqi, hqe⟩
    have hqget : t.qa_pairs.get? qi = some qa := by
      rw [List.get?_eq_getElem?, List.getElem?_eq_getElem hqi, hqe]
    refine ⟨(k, qaIdStr 0 qi, sim (qaText qa) p.text), ?_, rfl⟩
    unfold covEntriesForTopic
    apply List.mem_flatMap.mpr
    refine ⟨(qi, qa), mem_enum_of_get? _ qi qa hqget, ?_⟩
    unfold covEntriesForQA
    apply List.mem_map.mpr
    refine ⟨(k, p), ?_, rfl⟩
    exact List.mem_filter.mpr ⟨mem_enum_of_get? pts k p hget, by simpa using hsim⟩

/-- Witness for C9: a concrete strict increase of both covered counts. -/
theorem c9_monotonicity_witness :
    (∃ i, i ∈ lshQuery 1 4 (docEntries dh0) q0.minhash ∧
      i ∉ (lexCoveredList 1 4 dh0 []).toFinset) ∧
    (lexCoveredList 1 4 dh0 []).toFinset.card <
      (lexCoveredList 1 4 dh0 ([] ++ [q0])).toFinset.card ∧
    ((map_qa_to_knowledge simConst [] [kpQA]).knowledge_coverage.map
      (fun e => e.1)).toFinset.card <
      ((map_qa_to_knowledge simConst ([] ++ [topicT]) [kpQA]).knowledge_coverage.map
        (fun e => e.1)).toFinset.card :=
  ⟨⟨0, by decide, by decide⟩,
   (c9_monotonicity 1 4 dh0 [] q0 simConst [] [kpQA] topicT).2.2.2.1
     ⟨0, by decide, by decide⟩,
   (c9_monotonicity 1 4 dh0 [] q0 simConst [] [kpQA] topicT).2.2.2.2.2.2
     ⟨0, kpQA, qaQA, rfl, by decide, by norm_num [simConst], by decide⟩⟩

/-- Counterexample for C1: with zero document segments the lexical coverage
computation does not return rates of `0` — the unguarded division
`len(covered)/len(doc_hashes)` raises `ZeroDivisionError` (modelled as
`none`). -/
theorem c1_zero_segments_error : compute_lsh_coverage 1 128 [] [] = none := rfl

/-- C1 (amended): with at least one segment, `compute_lsh_coverage` succeeds
and both lexical rates lie in `[0, 1]`, with both equal to `0` for zero QA
units; the semantic rates of `calculate_weighted_coverage` over a mapping
of `map_qa_to_knowledge` always lie in `[0, 1]` and are `0` for zero
knowledge points.  (The original claim fails only at zero segments, where
the code raises a division-by-zero error instead of returning rates 0.) -/
theorem c1_rates_amended :
    (∀ (b r : Nat) (docs : List DocHash) (qas : List QAHash), docs ≠ [] →
      ∃ s, compute_lsh_coverage b r docs qas = some s ∧
        0 ≤ s.coverage_rate ∧ s.coverage_rate ≤ 1 ∧
        0 ≤ s.qa_match_rate ∧ s.qa_match_rate ≤ 1 ∧
        (qas = [] → s.coverage_rate = 0 ∧ s.qa_match_rate = 0)) ∧
    (∀ (sim : String → String → ℚ) (qd : List TopicGroup) (pts : List KnowledgePoint),
      0 ≤ (calculate_weighted_coverage (map_qa_to_knowledge sim qd pts) pts).simple_coverage ∧
      (calculate_weighted_coverage (map_qa_to_knowledge sim qd pts) pts).simple_coverage ≤ 1 ∧
      0 ≤ (calculate_weighted_coverage (map_qa_to_knowledge sim qd pts) pts).weighted_coverage ∧
      (calculate_weighted_coverage (map_qa_to_knowledge sim qd pts) pts).weighted_coverage ≤ 1 ∧
      (pts = [] →
        (calculate_weighted_coverage (map_qa_to_knowledge sim qd pts) pts).simple_coverage =
          0 ∧
        (calculate_weighted_coverage (map_qa_to_knowledge sim qd pts) pts).weighted_coverage =
          0)) := by
  constructor
  · intro b r docs qas hne
    have hlen : docs.length ≠ 0 := fun h => hne (List.length_eq_zero.mp h)
    have hpos : (0 : ℚ) < (docs.length : ℚ) := by
      exact_mod_cast Nat.pos_of_ne_zero hlen
    have hcomp : compute_lsh_coverage b r docs qas = some
        { covered_paragraphs := (lexCoveredList b r docs qas).toFinset
          paragraph_coverage := fun i =>
            (qas.enum.filter
              (fun q => decide (i ∈ lshQuery b r (docEntries docs) q.2.minhash))).map
              (fun q => q.1)
          qa_matches := fun qi =>
            ((qas.get? qi).map (fun q => lshQuery b r (docEntries docs) q.minhash)).getD []
          total_paragraphs := docs.length
          coverage_rate :=
            ((lexCoveredList b r docs qas).toFinset.card : ℚ) / (docs.length : ℚ)
          qa_with_match :=
            (qas.filter
              (fun q => decide (lshQuery b r (docEntries docs) q.minhash ≠ []))).length
          qa_match_rate := if qas = [] then 0 else
            ((qas.filter
              (fun q => decide (lshQuery b r (docEntries docs) q.minhash ≠ []))).length : ℚ) /
              (qas.length : ℚ) } := by
      unfold compute_lsh_coverage
      rw [if_neg hlen]
    refine ⟨_, hcomp, ?_, ?_, ?_, ?_, ?_⟩
    · show (0:ℚ) ≤ ((lexCoveredList b r docs qas).toFinset.card : ℚ) / (docs.length : ℚ)
      exact div_nonneg (Nat.cast_nonneg _) (Nat.cast_nonneg _)
    · show ((lexCoveredList b r docs qas).toFinset.card : ℚ) / (docs.length : ℚ) ≤ 1
      rw [div_le_one hpos]
      have hcard : (lexCoveredList b r docs qas).toFinset.card ≤ docs.length := by
        have := Finset.card_le_card (lexCovered_toFinset_subset_range b r docs qas)
        rwa [Finset.card_range] at this
      exact_mod_cast hcard
    · show (0:ℚ) ≤ if qas = [] then 0 else _
      by_cases hq : qas = []
      · rw [if_pos hq]
      · rw [if_neg hq]
        exact div_nonneg (Nat.cast_nonneg _) (Nat.cast_nonneg _)
    · show (if qas = [] then (0:ℚ) else _) ≤ 1
      by_cases hq : qas = []
      · rw [if_pos hq]
        norm_num
      · rw [if_neg hq]
        have hqpos : (0 : ℚ) < (qas.length : ℚ) := by
          exact_mod_cast Nat.pos_of_ne_zero
            (fun h => hq (List.length_eq_zero.mp h))
        rw [div_le_one hqpos]
        exact_mod_cast List.length_filter_le _ qas
    · intro hq
      subst hq
      constructor
      · show ((lexCoveredList b r docs ([] : List QAHash)).toFinset.card : ℚ) /
          (docs.length : ℚ) = 0
        show ((([] : List Nat)).toFinset.card : ℚ) / (docs.length : ℚ) = 0
        simp
      · rfl
  · intro sim qd pts
    by_cases hp : pts = []
    · subst hp
      exact ⟨le_refl 0, zero_le_one, le_refl 0, zero_le_one, fun _ => ⟨rfl, rfl⟩⟩
    · have hppos : (0 : ℚ) < (pts.length : ℚ) := by
        exact_mod_cast Nat.pos_of_ne_zero (fun h => hp (List.length_eq_zero.mp h))
      have htot := total_weight_pos pts hp
      have hkeys := covKeys_subset_range sim qd pts
      have hclen : (coveredKeys (map_qa_to_knowledge sim qd pts)).length =
          ((map_qa_to_knowledge sim qd pts).knowledge_coverage.map
            (fun e => e.1)).toFinset.card := length_dedupById _
      have hcardle : ((map_qa_to_knowledge sim qd pts).knowledge_coverage.map
          (fun e => e.1)).toFinset.card ≤ pts.length := by
        have := Finset.card_le_card hkeys
        rwa [Finset.card_range] at this
      have hcw : ((coveredKeys (map_qa_to_knowledge sim qd pts)).map
          (weightAt pts)).sum =
          ∑ k in ((map_qa_to_knowledge sim qd pts).knowledge_coverage.map
            (fun e => e.1)).toFinset, weightAt pts k := sum_map_dedupById _ _
      have hcwle : ((coveredKeys (map_qa_to_knowledge sim qd pts)).map
          (weightAt pts)).sum ≤ (pts.map pointWeight).sum := by
        rw [hcw, sum_map_eq_sum_range]
        exact Finset.sum_le_sum_of_subset_of_nonneg hkeys
          (fun k _ _ => (weightAt_pos pts k).le)
      have hcwnn : (0:ℚ) ≤ ((coveredKeys (map_qa_to_knowledge sim qd pts)).map
          (weightAt pts)).sum := by
        rw [hcw]
        exact Finset.sum_nonneg (fun k _ => (weightAt_pos pts k).le)
      refine ⟨?_, ?_, ?_, ?_, fun h => absurd h hp⟩
      · show (0:ℚ) ≤ if pts = [] then 0 else _
        rw [if_neg hp]
        exact div_nonneg (Nat.cast_nonneg _) (Nat.cast_nonneg _)
      · show (if pts = [] then (0:ℚ) else
          ((coveredKeys (map_qa_to_knowledge sim qd pts)).length : ℚ) /
            (pts.length : ℚ)) ≤ 1
        rw [if_neg hp, div_le_one hppos]
        rw [hclen] at *
        exact_mod_cast hcardle
      · show (0:ℚ) ≤ if (0:ℚ) < (pts.map pointWeight).sum then
          ((coveredKeys (map_qa_to_knowledge sim qd pts)).map (weightAt pts)).sum /
            (pts.map pointWeight).sum else 0
        rw [if_pos htot]
        exact div_nonneg hcwnn htot.le
      · show (if (0:ℚ) < (pts.map pointWeight).sum then
          ((coveredKeys (map_qa_to_knowledge sim qd pts)).map (weightAt pts)).sum /
            (pts.map pointWeight).sum else 0) ≤ 1
        rw [if_pos htot, div_le_one htot]
        exact hcwle

/-- Witness for C1 (amended) at a concrete one-segment sketch table. -/
theorem c1_rates_amended_witness :
    (dh0 : List DocHash) ≠ [] ∧
    ∃ s, compute_lsh_coverage 1 4 dh0 [] = some s ∧
      0 ≤ s.coverage_rate ∧ s.coverage_rate ≤ 1 ∧
      0 ≤ s.qa_match_rate ∧ s.qa_match_rate ≤ 1 ∧
      (([] : List QAHash) = [] → s.coverage_rate = 0 ∧ s.qa_match_rate = 0) :=
  ⟨by decide, c1_rates_amended.1 1 4 dh0 [] (by decide)⟩

theorem hash_based_empty_qa (tok : String → List String) (hf : Nat → String → Nat)
    (b r : Nat) (doc : String) (h : split_document doc 50 ≠ []) :
    (hash_based_evaluation tok hf b r doc []).map
      (fun o => (o.1.coverage_rate, o.1.qa_match_rate)) = some (0, 0) := by
  have hlen : (compute_minhash tok hf (split_document doc 50) 128).length ≠ 0 := by
    intro h2
    simp only [compute_minhash, List.length_map] at h2
    exact h (List.length_eq_zero.mp h2)
  have hc : compute_lsh_coverage b r (compute_minhash tok hf (split_document doc 50) 128)
      (compute_qa_minhash tok hf [] 128) = some
      { covered_paragraphs := (lexCoveredList b r
          (compute_minhash tok hf (split_document doc 50) 128) []).toFinset
        paragraph_coverage := fun i =>
          (([] : List QAHash).enum.filter
            (fun q => decide (i ∈ lshQuery b r
              (docEntries (compute_minhash tok hf (split_document doc 50) 128))
              q.2.minhash))).map (fun q => q.1)
        qa_matches := fun qi =>
          ((([] : List QAHash).get? qi).map (fun q => lshQuery b r
            (docEntries (compute_minhash tok hf (split_document doc 50) 128))
            q.minhash)).getD []
        total_paragraphs := (compute_minhash tok hf (split_document doc 50) 128).length
        coverage_rate :=
          (((lexCoveredList b r (compute_minhash tok hf (split_document doc 50) 128)
            []).toFinset.card : ℚ)) /
            ((compute_minhash tok hf (split_document doc 50) 128).length : ℚ)
        qa_with_match := (([] : List QAHash).filter
          (fun q => decide (lshQuery b r
            (docEntries (compute_minhash tok hf (split_document doc 50) 128))
            q.minhash ≠ []))).length
        qa_match_rate := if ([] : List QAHash) = [] then 0 else
          ((([] : List QAHash).filter
            (fun q => decide (lshQuery b r
              (docEntries (compute_minhash tok hf (split_document doc 50) 128))
              q.minhash ≠ []))).length : ℚ) / (([] : List QAHash).length : ℚ) } := by
    unfold compute_lsh_coverage
    rw [if_neg hlen]
    rfl
  have heq : hash_based_evaluation tok hf b r doc [] =
      (compute_lsh_coverage b r (compute_minhash tok hf (split_document doc 50) 128)
        (compute_qa_minhash tok hf [] 128)).map
        (assembleHashResults (split_document doc 50)
          (compute_qa_minhash tok hf [] 128)) := rfl
  rw [heq, hc, Option.map_some', Option.map_some']
  refine congrArg some ?_
  refine Prod.ext ?_ ?_
  · show (((lexCoveredList b r (compute_minhash tok hf (split_document doc 50) 128)
      []).toFinset.card : ℚ)) /
      ((compute_minhash tok hf (split_document doc 50) 128).length : ℚ) = 0
    show ((([] : List Nat).toFinset.card : ℚ)) /
      ((compute_minhash tok hf (split_document doc 50) 128).length : ℚ) = 0
    simp
  · rfl

/-- Counterexample for C2: with a one-paragraph document and an empty QA group
list the engine does not fail fast — it silently returns a report whose
coverage and match rates are both `0`. -/
theorem c2_silent_zero_report :
    (hash_based_evaluation tok0 hf0 1 4 doc0 []).map
      (fun o => (o.1.coverage_rate, o.1.qa_match_rate)) = some (0, 0) :=
  hash_based_empty_qa tok0 hf0 1 4 doc0 (by decide)

/-- C2 (amended): the engine performs no input validation.  An empty document
ends in an unguarded `ZeroDivisionError` inside the lexical stage (a `none`
result) rather than a descriptive input error; an empty QA group list is
accepted silently and yields a zero-valued report; and a QA pair missing
both `question` and `answer` is hashed with empty-string defaults instead
of being rejected. -/
theorem c2_no_validation_amended :
    (∀ (tok : String → List String) (hf : Nat → String → Nat) (b r : Nat)
      (qd : List TopicGroup), hash_based_evaluation tok hf b r "" qd = none) ∧
    (∀ (tok : String → List String) (hf : Nat → String → Nat) (b r : Nat) (doc : String),
      split_document doc 50 ≠ [] →
      (hash_based_evaluation tok hf b r doc []).map
        (fun o => (o.1.coverage_rate, o.1.qa_match_rate)) = some (0, 0)) ∧
    (∀ (tok : String → List String) (hf : Nat → String → Nat) (tname : Option String),
      ∃ e, compute_qa_minhash tok hf [⟨tname, [⟨none, none⟩]⟩] 128 = [e] ∧
        e.question = "" ∧ e.answer = "") := by
  refine ⟨?_, ?_, ?_⟩
  · intro tok hf b r qd
    rfl
  · intro tok hf b r doc h
    exact hash_based_empty_qa tok hf b r doc h
  · intro tok hf tname
    exact ⟨_, rfl, rfl, rfl⟩

/-- Witness for C2 (amended) at a concrete document and tokenizer. -/
theorem c2_no_validation_amended_witness :
    split_document doc0 50 ≠ [] ∧
    (hash_based_evaluation tok0 hf0 2 8 doc0 []).map
      (fun o => (o.1.coverage_rate, o.1.qa_match_rate)) = some (0, 0) :=
  ⟨by decide, c2_no_validation_amended.2.1 tok0 hf0 2 8 doc0 (by decide)⟩

/-- Counterexample for C3: an empty token sequence does yield the all-sentinel
sketch, but a query with that sketch against an index holding another empty
sketch returns the inserted id — the Similarity Index has no empty-sketch
guard. -/
theorem c3_empty_sketch_matches :
    buildSketch hf0 128 [] = List.replicate 128 maxHash ∧
    lshQuery 32 4 [(0, buildSketch hf0 128 [])] (buildSketch hf0 128 []) = [0] ∧
    lshQuery 32 4 [(0, buildSketch hf0 128 [])] (buildSketch hf0 128 []) ≠ [] := by
  refine ⟨by decide, by decide, by decide⟩

/-- C3 (amended): an empty token sequence yields the sketch of sentinel
maximum values, but the banding query performs no empty-sketch guard: any
inserted sketch equal to the query sketch (in particular another empty
sketch) is returned whenever there is at least one band. -/
theorem c3_empty_sketch_amended :
    (∀ (hf : Nat → String → Nat) (n : Nat),
      buildSketch hf n [] = List.replicate n maxHash) ∧
    (∀ (b r : Nat), 1 ≤ b → ∀ (entries : List (Nat × List Nat)) (id : Nat) (s q : List Nat),
      (id, s) ∈ entries → s = q → id ∈ lshQuery b r entries q) := by
  constructor
  · intro hf n
    unfold buildSketch
    induction n with
    | zero => rfl
    | succ m ih =>
      rw [List.range_succ, List.map_append, ih, List.replicate_succ']
      rfl
  · intro b r hb entries id s q hmem hsq
    unfold lshQuery
    apply List.mem_map.mpr
    refine ⟨(id, s), List.mem_filter.mpr ⟨hmem, ?_⟩, rfl⟩
    unfold bandMatch
    apply List.any_eq_true.mpr
    refine ⟨0, List.mem_range.mpr (by omega), by simp [hsq]⟩

/-- Witness for C3 (amended) at the concrete 128-permutation configuration. -/
theorem c3_empty_sketch_amended_witness :
    1 ≤ 32 ∧ buildSketch hf0 128 [] = List.replicate 128 maxHash ∧
    0 ∈ lshQuery 32 4 [(0, buildSketch hf0 128 [])] (buildSketch hf0 128 []) :=
  ⟨by decide, c3_empty_sketch_amended.1 hf0 128,
   c3_empty_sketch_amended.2 32 4 (by decide) [(0, buildSketch hf0 128 [])] 0
     (buildSketch hf0 128 []) (buildSketch hf0 128 []) (by simp) rfl⟩

theorem paragraph_source_ne (t : String) :
    ("paragraph_" ++ t ≠ "entity") ∧ ("paragraph_" ++ t ≠ "noun_chunk") := by
  constructor
  · intro h
    have h2 := congrArg String.length h
    rw [String.length_append] at h2
    have e1 : ("paragraph_" : String).length = 10 := rfl
    have e2 : ("entity" : String).length = 6 := rfl
    rw [e1, e2] at h2
    omega
  · intro h
    have h2 := congrArg String.length h
    rw [String.length_append] at h2
    have e1 : ("paragraph_" : String).length = 10 := rfl
    have e2 : ("noun_chunk" : String).length = 10 := rfl
    rw [e1, e2] at h2
    have h4 : t.length = 0 := by omega
    have h5 : t = "" := by
      have hdata : t.data = [] := List.length_eq_zero.mp h4
      cases t
      simp only at hdata
      rw [hdata]
    rw [h5] at h
    exact absurd h (by decide)

theorem extract_source_none (ents : List (String × String)) (chunks : List String)
    (mc : Option (String → String)) (content : String) (p : KnowledgePoint)
    (hp : p ∈ extract_knowledge_points ents chunks mc content)
    (hs : p.source = "entity" ∨ p.source = "noun_chunk") : p.paragraph_idx = none := by
  have hall : p ∈ basicPoints ents chunks ++ advancedPoints mc content :=
    mem_of_mem_dedupByNorm _ _ _ p hp
  rcases List.mem_append.mp hall with h | h
  · unfold basicPoints at h
    rcases List.mem_append.mp h with h2 | h2
    · rcases List.mem_map.mp h2 with ⟨e, _, rfl⟩
      rfl
    · rcases List.mem_map.mp h2 with ⟨c, _, rfl⟩
      rfl
  · unfold advancedPoints at h
    cases mc with
    | none => simp at h
    | some llm =>
      rcases List.mem_flatMap.mp h with ⟨ip, _, h3⟩
      by_cases hlen : ip.2.length < 50
      · rw [if_pos hlen] at h3
        simp at h3
      · rw [if_neg hlen] at h3
        rcases List.mem_map.mp h3 with ⟨t, _, rfl⟩
        exfalso
        rcases hs with hs | hs
        · exact (paragraph_source_ne (toString ip.1)).1 hs
        · exact (paragraph_source_ne (toString ip.1)).2 hs

theorem mem_prioritize (points : List KnowledgePoint) (hr : HashResults) (p : KnowledgePoint) :
    p ∈ prioritize_knowledge_points points hr ↔
      ∃ p0 ∈ points, p = assignPriority (lowCoverageIdx hr) p0 := by
  unfold prioritize_knowledge_points
  rw [mem_sortByKey_binary (fun x : KnowledgePoint => x.priority = some Priority.high)]
  rw [List.mem_map]
  constructor
  · rintro ⟨p0, h0, rfl⟩
    exact ⟨p0, h0, rfl⟩
  · rintro ⟨p0, h0, rfl⟩
    exact ⟨p0, h0, rfl⟩

theorem mem_all_gaps_iff (m : MappingResults) (points : List KnowledgePoint)
    (g : KnowledgeGap) :
    g ∈ (identify_knowledge_gaps m points).all_gaps ↔
      ∃ i p, points.get? i = some p ∧ (∀ e ∈ m.knowledge_coverage, e.1 ≠ i) ∧
        g = mkGap i p := by
  show g ∈ sortByKey _ (uncoveredGaps m points) ↔ _
  rw [mem_sortByKey_binary (fun g : KnowledgeGap => g.priority = Priority.high)]
  unfold uncoveredGaps
  constructor
  · intro h
    rcases List.mem_map.mp h with ⟨ip, hip, rfl⟩
    have hip2 : ip ∈ points.enum := List.mem_of_mem_filter hip
    have hget : points.get? ip.1 = some ip.2 := by
      rw [List.get?_eq_getElem?]
      exact List.mk_mem_enum_iff_getElem?.mp (by exact hip2)
    have hcov : ip.1 ∉ m.knowledge_coverage.map (fun e => e.1) := by
      simpa using List.of_mem_filter hip
    refine ⟨ip.1, ip.2, hget, ?_, rfl⟩
    intro e he heq
    exact hcov (heq ▸ List.mem_map_of_mem (fun e => e.1) he)
  · rintro ⟨i, p, hget, hcov, rfl⟩
    have hip : (i, p) ∈ points.enum := mem_enum_of_get? points i p hget
    have hnc : i ∉ m.knowledge_coverage.map (fun e => e.1) := by
      intro hmem
      rcases List.mem_map.mp hmem with ⟨e, he, heq⟩
      exact hcov e he heq
    refine List.mem_map_of_mem _ (List.mem_filter.mpr ⟨hip, ?_⟩)
    simpa using hnc

/-- C10: entity and noun-chunk knowledge points are created without a source
paragraph, so prioritization always assigns them `normal`, and every
high-priority gap stems from a point with a source paragraph whose source
is neither `entity` nor `noun_chunk` (the LLM-backed path). -/
theorem c10_basic_points_normal (ents : List (String × String)) (chunks : List String)
    (mc : Option (String → String)) (content : String) (hr : HashResults)
    (m : MappingResults) :
    (∀ p ∈ prioritize_knowledge_points
        (extract_knowledge_points ents chunks mc content) hr,
      (p.source = "entity" ∨ p.source = "noun_chunk") →
        p.priority = some Priority.normal) ∧
    (∀ g ∈ (identify_knowledge_gaps m (prioritize_knowledge_points
        (extract_knowledge_points ents chunks mc content) hr)).high_priority_gaps,
      ∃ i p, (prioritize_knowledge_points
          (extract_knowledge_points ents chunks mc content) hr).get? i = some p ∧
        g = mkGap i p ∧ p.paragraph_idx ≠ none ∧
        p.source ≠ "entity" ∧ p.source ≠ "noun_chunk") := by
  have key : ∀ p ∈ prioritize_knowledge_points
      (extract_knowledge_points ents chunks mc content) hr,
      (p.source = "entity" ∨ p.source = "noun_chunk") →
        p.priority = some Priority.normal := by
    intro p hp hs
    rcases (mem_prioritize _ hr p).mp hp with ⟨p0, h0, rfl⟩
    have hsrc : (assignPriority (lowCoverageIdx hr) p0).source = p0.source := rfl
    rw [hsrc] at hs
    have hidx : p0.paragraph_idx = none :=
      extract_source_none ents chunks mc content p0 h0 hs
    show some (match p0.paragraph_idx with
      | some i => if i ∈ lowCoverageIdx hr then Priority.high else Priority.normal
      | none => Priority.normal) = some Priority.normal
    rw [hidx]
  refine ⟨key, ?_⟩
  intro g hg
  have hg2 : g ∈ (identify_knowledge_gaps m (prioritize_knowledge_points
      (extract_knowledge_points ents chunks mc content) hr)).all_gaps ∧
      g.priority = Priority.high := by
    have := List.mem_filter.mp hg
    exact ⟨this.1, by simpa using this.2⟩
  rcases (mem_all_gaps_iff m _ g).mp hg2.1 with ⟨i, p, hget, _, hgap⟩
  refine ⟨i, p, hget, hgap, ?_, ?_, ?_⟩
  · intro hidx
    have hpm : p ∈ prioritize_knowledge_points
        (extract_knowledge_points ents chunks mc content) hr := List.get?_mem hget
    rcases (mem_prioritize _ hr p).mp hpm with ⟨p0, h0, rfl⟩
    have hidx0 : p0.paragraph_idx = none := hidx
    have hpri : (assignPriority (lowCoverageIdx hr) p0).priority =
        some Priority.normal := by
      show some (match p0.paragraph_idx with
        | some i => if i ∈ lowCoverageIdx hr then Priority.high else Priority.normal
        | none => Priority.normal) = some Priority.normal
      rw [hidx0]
    have : g.priority = Priority.normal := by
      rw [hgap]
      show ((assignPriority (lowCoverageIdx hr) p0).priority).getD Priority.normal =
        Priority.normal
      rw [hpri]
      rfl
    rw [this] at hg2
    exact absurd hg2.2 (by decide)
  · intro hsrc
    have hpm : p ∈ prioritize_knowledge_points
        (extract_knowledge_points ents chunks mc content) hr := List.get?_mem hget
    have hpri : p.priority = some Priority.normal := key p hpm (Or.inl hsrc)
    have : g.priority = Priority.normal := by
      rw [hgap]
      show (p.priority).getD Priority.normal = Priority.normal
      rw [hpri]
      rfl
    rw [this] at hg2
    exact absurd hg2.2 (by decide)
  · intro hsrc
    have hpm : p ∈ prioritize_knowledge_points
        (extract_knowledge_points ents chunks mc content) hr := List.get?_mem hget
    have hpri : p.priority = some Priority.normal := key p hpm (Or.inr hsrc)
    have : g.priority = Priority.normal := by
      rw [hgap]
      show (p.priority).getD Priority.normal = Priority.normal
      rw [hpri]
      rfl
    rw [this] at hg2
    exact absurd hg2.2 (by decide)

/-- Witness for C10: a concrete entity point comes out of prioritization with
priority `normal`. -/
theorem c10_basic_points_normal_witness :
    (⟨"E1", "ORG", "entity", none, some Priority.normal⟩ : KnowledgePoint) ∈
      prioritize_knowledge_points
        (extract_knowledge_points [("E1", "ORG")] ["long chunk"] (some llm0) "")
        hrEmpty ∧
    (⟨"E1", "ORG", "entity", none, some Priority.normal⟩ : KnowledgePoint).priority =
      some Priority.normal :=
  ⟨by decide,
   (c10_basic_points_normal [("E1", "ORG")] ["long chunk"] (some llm0) "" hrEmpty
     mCov0).1 _ (by decide) (Or.inl rfl)⟩
